import Mathlib

/-!
# Shallow embedding of the Simple_RayTracingDemo ray tracer (ray.cpp)

The repository is a single-file Whitted-style ray tracer.  This file embeds
the core of `ray.cpp` — `Sphere::intersect` and the recursive `trace`
function — as Lean definitions over exact real arithmetic (the spec's data
model describes the vectors as real-valued tuples), and proves the spec's
claims about them.

The 3-component vector utility (`vec3.h`) is not part of the repository
sources; its operations are modelled from the spec's data-model section.
-/

noncomputable section

/-- Modelled from the spec: the 3-component real-valued vector of `vec3.h`
(used interchangeably as point, direction and RGB color). -/
structure Vec3 where
  x : ℝ
  y : ℝ
  z : ℝ

namespace Vec3

theorem ext3 (a b : Vec3) (hx : a.x = b.x) (hy : a.y = b.y) (hz : a.z = b.z) :
    a = b := by
  cases a; cases b; simp_all

/-- Modelled from the spec: the broadcast constructor `Vec3f(t)` = (t,t,t). -/
def ofScalar (t : ℝ) : Vec3 := ⟨t, t, t⟩

instance : Zero Vec3 := ⟨ofScalar 0⟩

instance : Add Vec3 := ⟨fun a b => ⟨a.x + b.x, a.y + b.y, a.z + b.z⟩⟩

instance : Sub Vec3 := ⟨fun a b => ⟨a.x - b.x, a.y - b.y, a.z - b.z⟩⟩

instance : Neg Vec3 := ⟨fun a => ⟨-a.x, -a.y, -a.z⟩⟩

/-- Modelled from the spec: component-wise vector product (C++ `operator*`). -/
instance : Mul Vec3 := ⟨fun a b => ⟨a.x * b.x, a.y * b.y, a.z * b.z⟩⟩

/-- Modelled from the spec: vector-times-scalar product (C++ `operator*(T)`). -/
def smul (v : Vec3) (t : ℝ) : Vec3 := ⟨v.x * t, v.y * t, v.z * t⟩

/-- Modelled from the spec: the dot product of `vec3.h`. -/
def dot (a b : Vec3) : ℝ := a.x * b.x + a.y * b.y + a.z * b.z

/-- Modelled from the spec: squared magnitude. -/
def length2 (v : Vec3) : ℝ := v.dot v

/-- Modelled from the spec: vector magnitude. -/
def length (v : Vec3) : ℝ := Real.sqrt v.length2

/-- Modelled from the spec: `normalize` scales a vector to unit length
(division by a zero length follows the real-division convention and leaves
the zero vector fixed, matching the guarded C++ utility). -/
def normalize (v : Vec3) : Vec3 := v.smul (1 / v.length)

@[simp] theorem zero_x : (0 : Vec3).x = 0 := rfl

@[simp] theorem zero_y : (0 : Vec3).y = 0 := rfl

@[simp] theorem zero_z : (0 : Vec3).z = 0 := rfl

@[simp] theorem ofScalar_x (t : ℝ) : (ofScalar t).x = t := rfl

@[simp] theorem ofScalar_y (t : ℝ) : (ofScalar t).y = t := rfl

@[simp] theorem ofScalar_z (t : ℝ) : (ofScalar t).z = t := rfl

@[simp] theorem add_x (a b : Vec3) : (a + b).x = a.x + b.x := rfl

@[simp] theorem add_y (a b : Vec3) : (a + b).y = a.y + b.y := rfl

@[simp] theorem add_z (a b : Vec3) : (a + b).z = a.z + b.z := rfl

@[simp] theorem sub_x (a b : Vec3) : (a - b).x = a.x - b.x := rfl

@[simp] theorem sub_y (a b : Vec3) : (a - b).y = a.y - b.y := rfl

@[simp] theorem sub_z (a b : Vec3) : (a - b).z = a.z - b.z := rfl

@[simp] theorem neg_x (a : Vec3) : (-a).x = -a.x := rfl

@[simp] theorem neg_y (a : Vec3) : (-a).y = -a.y := rfl

@[simp] theorem neg_z (a : Vec3) : (-a).z = -a.z := rfl

@[simp] theorem mul_x (a b : Vec3) : (a * b).x = a.x * b.x := rfl

@[simp] theorem mul_y (a b : Vec3) : (a * b).y = a.y * b.y := rfl

@[simp] theorem mul_z (a b : Vec3) : (a * b).z = a.z * b.z := rfl

@[simp] theorem smul_x (v : Vec3) (t : ℝ) : (v.smul t).x = v.x * t := rfl

@[simp] theorem smul_y (v : Vec3) (t : ℝ) : (v.smul t).y = v.y * t := rfl

@[simp] theorem smul_z (v : Vec3) (t : ℝ) : (v.smul t).z = v.z * t := rfl

@[simp] theorem mk_x (a b c : ℝ) : (Vec3.mk a b c).x = a := rfl

@[simp] theorem mk_y (a b c : ℝ) : (Vec3.mk a b c).y = b := rfl

@[simp] theorem mk_z (a b c : ℝ) : (Vec3.mk a b c).z = c := rfl

theorem dot_def (a b : Vec3) : a.dot b = a.x * b.x + a.y * b.y + a.z * b.z := rfl

instance : AddCommMonoid Vec3 where
  add_assoc a b c := by apply ext3 <;> simp <;> ring
  zero_add a := by apply ext3 <;> simp
  add_zero a := by apply ext3 <;> simp
  add_comm a b := by apply ext3 <;> simp <;> ring
  nsmul := nsmulRec

end Vec3

/-- The scene primitive of `ray.cpp`: position, radius (with its cached
square), surface and emission colors, and the two material weights. -/
structure Sphere where
  center : Vec3
  radius : ℝ
  radius2 : ℝ
  surfaceColor : Vec3
  emissionColor : Vec3
  transparency : ℝ
  reflection : ℝ

/-- The C++ `Sphere` constructor: caches `radius2 = r * r` and defaults the
material parameters. -/
def mkSphere (c : Vec3) (r : ℝ) (sc : Vec3) (refl : ℝ := 0) (transp : ℝ := 0)
    (ec : Vec3 := 0) : Sphere :=
  ⟨c, r, r * r, sc, ec, transp, refl⟩

/-- `Sphere::intersect` with the reference out-parameters made explicit: the
result carries the returned `bool` together with the final values of the
caller's `t0` and `t1` slots (unchanged on a miss, overwritten on a hit). -/
def Sphere.intersectRef (s : Sphere) (rayorig raydir : Vec3) (t0 t1 : ℝ) :
    Bool × ℝ × ℝ :=
  let l := s.center - rayorig
  let tca := l.dot raydir
  if tca < 0 then (false, t0, t1)
  else
    let d2 := l.dot l - tca * tca
    if d2 > s.radius2 then (false, t0, t1)
    else
      let thc := Real.sqrt (s.radius2 - d2)
      (true, tca - thc, tca + thc)

/-- `Sphere::intersect` as a partial map: `none` for a miss, `some (t0, t1)`
for a hit (the out-parameter values only matter on a `true` return, which is
the only way `trace` consumes them). -/
def Sphere.intersect (s : Sphere) (rayorig raydir : Vec3) : Option (ℝ × ℝ) :=
  let l := s.center - rayorig
  let tca := l.dot raydir
  if tca < 0 then none
  else
    let d2 := l.dot l - tca * tca
    if d2 > s.radius2 then none
    else
      let thc := Real.sqrt (s.radius2 - d2)
      some (tca - thc, tca + thc)

/-- Recursion ceiling of `trace` (`#define MAX_RAY_DEPTH 5`). -/
def MAX_RAY_DEPTH : ℕ := 5

/-- The `mix` helper of `ray.cpp`: `b * m + a * (1 - m)`. -/
def mix (a b m : ℝ) : ℝ := b * m + a * (1 - m)

/-- The secondary-ray origin offset of `trace` (`float bias = 1e-4`). -/
def bias : ℝ := 1e-4

/-- The effective hit distance `trace`'s loop derives from one sphere:
`t0`, or `t1` when `t0` is negative, and `none` on a miss. -/
def effDist (rayorig raydir : Vec3) (s : Sphere) : Option ℝ :=
  match s.intersect rayorig raydir with
  | none => none
  | some (t0, t1) => some (if t0 < 0 then t1 else t0)

/-- One iteration of `trace`'s nearest-hit loop: the running `(sphere, tnear)`
state (`none` encodes the initial `sphere = NULL`, `tnear = INFINITY`) updated
by testing one sphere. -/
def nearestStep (rayorig raydir : Vec3) (acc : Option (Sphere × ℝ))
    (s : Sphere) : Option (Sphere × ℝ) :=
  match s.intersect rayorig raydir with
  | none => acc
  | some (t0, t1) =>
    let t := if t0 < 0 then t1 else t0
    match acc with
    | none => some (s, t)
    | some (b, tnear) => if t < tnear then some (s, t) else some (b, tnear)

/-- `trace`'s nearest-hit search over the whole scene (lines 77–89 of
`ray.cpp`): the sphere pointer and `tnear` after the loop, `none` when no
sphere recorded a hit. -/
def findNearest (spheres : List Sphere) (rayorig raydir : Vec3) :
    Option (Sphere × ℝ) :=
  spheres.foldl (nearestStep rayorig raydir) none

/-- The shadow test of `trace`'s diffuse branch: whether any sphere of the
scene other than the light at index `i` intersects the shadow ray. -/
def occluded (spheres : List Sphere) (i : ℕ) (origin dir : Vec3) : Bool :=
  spheres.enum.any fun p => p.1 != i && (p.2.intersect origin dir).isSome

/-- The diffuse branch of `trace` (lines 134–154): the Lambertian sum over
the emissive spheres, with binary shadow transmission. -/
def diffuseColor (spheres : List Sphere) (sphere : Sphere) (phit nhit : Vec3) :
    Vec3 :=
  spheres.enum.foldl
    (fun acc p =>
      if p.2.emissionColor.x > 0 then
        let lightDirection := (p.2.center - phit).normalize
        let transmission : Vec3 :=
          if occluded spheres p.1 (phit + nhit.smul bias) lightDirection
          then 0 else Vec3.ofScalar 1
        acc + (sphere.surfaceColor * transmission).smul
            (max 0 (nhit.dot lightDirection)) * p.2.emissionColor
      else acc)
    0

/-- The recursive `trace` function of `ray.cpp` (lines 74–158).  The
recursion is bounded because both secondary rays are spawned only under
`depth < MAX_RAY_DEPTH` and carry `depth + 1`. -/
def trace (rayorig raydir : Vec3) (spheres : List Sphere) (depth : ℕ) :
    Vec3 :=
  match findNearest spheres rayorig raydir with
  | none => Vec3.ofScalar 2
  | some (sphere, tnear) =>
    let phit := rayorig + raydir.smul tnear
    let nhit0 := (phit - sphere.center).normalize
    let nhit := if raydir.dot nhit0 > 0 then -nhit0 else nhit0
    let surfaceColor : Vec3 :=
      if hd : (sphere.transparency > 0 ∨ sphere.reflection > 0) ∧
          depth < MAX_RAY_DEPTH then
        let facingratio := -(raydir.dot nhit)
        let fresneleffect := mix ((1 - facingratio) ^ 3) 1 0.1
        let refldir := (raydir - (nhit.smul 2).smul (raydir.dot nhit)).normalize
        let reflection := trace (phit + nhit.smul bias) refldir spheres
          (depth + 1)
        let refraction : Vec3 :=
          if sphere.transparency ≠ 0 then
            let ior : ℝ := 1.1
            let eta := if raydir.dot nhit0 > 0 then ior else 1 / ior
            let cosi := -(nhit.dot raydir)
            let k := 1 - eta * eta * (1 - cosi * cosi)
            let refrdir :=
              ((raydir.smul eta) + nhit.smul (eta * cosi - Real.sqrt k)).normalize
            trace (phit - nhit.smul bias) refrdir spheres (depth + 1)
          else 0
        (reflection.smul fresneleffect +
            (refraction.smul (1 - fresneleffect)).smul sphere.transparency) *
          sphere.surfaceColor
      else
        diffuseColor spheres sphere phit nhit
    surfaceColor + sphere.emissionColor
termination_by MAX_RAY_DEPTH - depth
decreasing_by
  all_goals simp only [MAX_RAY_DEPTH] at hd ⊢
  all_goals omega

/-- What `trace` computes once the recursion budget is spent: the same
nearest-hit search followed by the diffuse (local-only) branch, with no
recursive call. -/
def traceBase (rayorig raydir : Vec3) (spheres : List Sphere) : Vec3 :=
  match findNearest spheres rayorig raydir with
  | none => Vec3.ofScalar 2
  | some (sphere, tnear) =>
    let phit := rayorig + raydir.smul tnear
    let nhit0 := (phit - sphere.center).normalize
    let nhit := if raydir.dot nhit0 > 0 then -nhit0 else nhit0
    diffuseColor spheres sphere phit nhit + sphere.emissionColor

/-- The shading term `trace` computes for a recorded hit, before the
unconditional `+ emissionColor` of line 157: the specular/transmissive mix
when the material and depth allow it, the diffuse sum otherwise. -/
def surfaceShade (rayorig raydir : Vec3) (spheres : List Sphere) (depth : ℕ)
    (sphere : Sphere) (tnear : ℝ) : Vec3 :=
  let phit := rayorig + raydir.smul tnear
  let nhit0 := (phit - sphere.center).normalize
  let nhit := if raydir.dot nhit0 > 0 then -nhit0 else nhit0
  if (sphere.transparency > 0 ∨ sphere.reflection > 0) ∧
      depth < MAX_RAY_DEPTH then
    let facingratio := -(raydir.dot nhit)
    let fresneleffect := mix ((1 - facingratio) ^ 3) 1 0.1
    let refldir := (raydir - (nhit.smul 2).smul (raydir.dot nhit)).normalize
    let reflection := trace (phit + nhit.smul bias) refldir spheres (depth + 1)
    let refraction : Vec3 :=
      if sphere.transparency ≠ 0 then
        let ior : ℝ := 1.1
        let eta := if raydir.dot nhit0 > 0 then ior else 1 / ior
        let cosi := -(nhit.dot raydir)
        let k := 1 - eta * eta * (1 - cosi * cosi)
        let refrdir :=
          ((raydir.smul eta) + nhit.smul (eta * cosi - Real.sqrt k)).normalize
        trace (phit - nhit.smul bias) refrdir spheres (depth + 1)
      else 0
    (reflection.smul fresneleffect +
        (refraction.smul (1 - fresneleffect)).smul sphere.transparency) *
      sphere.surfaceColor
  else
    diffuseColor spheres sphere phit nhit

/-- `trace` instrumented with an explicit call budget: every invocation
consumes one unit of `fuel`, and an exhausted budget yields `none`.  Used to
state the depth-bound claim: a budget of `MAX_RAY_DEPTH + 1` always
suffices. -/
def traceFuel : ℕ → Vec3 → Vec3 → List Sphere → ℕ → Option Vec3
  | 0, _, _, _, _ => none
  | fuel + 1, rayorig, raydir, spheres, depth =>
    match findNearest spheres rayorig raydir with
    | none => some (Vec3.ofScalar 2)
    | some (sphere, tnear) =>
      let phit := rayorig + raydir.smul tnear
      let nhit0 := (phit - sphere.center).normalize
      let nhit := if raydir.dot nhit0 > 0 then -nhit0 else nhit0
      if (sphere.transparency > 0 ∨ sphere.reflection > 0) ∧
          depth < MAX_RAY_DEPTH then
        let facingratio := -(raydir.dot nhit)
        let fresneleffect := mix ((1 - facingratio) ^ 3) 1 0.1
        let refldir := (raydir - (nhit.smul 2).smul (raydir.dot nhit)).normalize
        match traceFuel fuel (phit + nhit.smul bias) refldir spheres
            (depth + 1) with
        | none => none
        | some reflection =>
          if sphere.transparency ≠ 0 then
            let ior : ℝ := 1.1
            let eta := if raydir.dot nhit0 > 0 then ior else 1 / ior
            let cosi := -(nhit.dot raydir)
            let k := 1 - eta * eta * (1 - cosi * cosi)
            let refrdir :=
              ((raydir.smul eta) + nhit.smul (eta * cosi - Real.sqrt k)).normalize
            match traceFuel fuel (phit - nhit.smul bias) refrdir spheres
                (depth + 1) with
            | none => none
            | some refraction =>
              some ((reflection.smul fresneleffect +
                  (refraction.smul (1 - fresneleffect)).smul
                    sphere.transparency) * sphere.surfaceColor +
                sphere.emissionColor)
          else
            some ((reflection.smul fresneleffect +
                ((0 : Vec3).smul (1 - fresneleffect)).smul
                  sphere.transparency) * sphere.surfaceColor +
              sphere.emissionColor)
      else
        some (diffuseColor spheres sphere phit nhit + sphere.emissionColor)

/-- The local `tca` of `Sphere::intersect`: `l.dot(raydir)` for
`l = center - rayorig`. -/
def tcaOf (s : Sphere) (rayorig raydir : Vec3) : ℝ :=
  (s.center - rayorig).dot raydir

/-- The local `d2` of `Sphere::intersect`: `l.dot(l) - tca * tca`. -/
def d2Of (s : Sphere) (rayorig raydir : Vec3) : ℝ :=
  (s.center - rayorig).dot (s.center - rayorig) -
    tcaOf s rayorig raydir * tcaOf s rayorig raydir

/-- The local `thc` of `Sphere::intersect`: `sqrt(radius2 - d2)`. -/
def thcOf (s : Sphere) (rayorig raydir : Vec3) : ℝ :=
  Real.sqrt (s.radius2 - d2Of s rayorig raydir)

theorem intersect_eq_none_iff (s : Sphere) (o d : Vec3) :
    s.intersect o d = none ↔
      tcaOf s o d < 0 ∨ d2Of s o d > s.radius2 := by
  simp only [Sphere.intersect, tcaOf, d2Of]
  split_ifs with h1 h2
  · simp [h1]
  · simp [h1, h2]
  · simp [h1, h2]

theorem intersect_eq_some_iff (s : Sphere) (o d : Vec3) (t0 t1 : ℝ) :
    s.intersect o d = some (t0, t1) ↔
      0 ≤ tcaOf s o d ∧ d2Of s o d ≤ s.radius2 ∧
        t0 = tcaOf s o d - thcOf s o d ∧ t1 = tcaOf s o d + thcOf s o d := by
  simp only [Sphere.intersect, tcaOf, d2Of, thcOf]
  split_ifs with h1 h2
  · simp [h1, not_le.2 h1]
  · simp [not_lt.2 (le_of_not_lt h1), not_le.2 h2]
  · simp [not_lt.1 h1, not_lt.1 h2, eq_comm, and_comm]

theorem nearestStep_eq (o d : Vec3) (acc : Option (Sphere × ℝ)) (s : Sphere) :
    nearestStep o d acc s =
      match effDist o d s, acc with
      | none, _ => acc
      | some t, none => some (s, t)
      | some t, some (b, tb) => if t < tb then some (s, t) else some (b, tb) := by
  unfold nearestStep effDist
  cases h : s.intersect o d with
  | none => cases acc <;> rfl
  | some p =>
    obtain ⟨t0, t1⟩ := p
    cases acc <;> rfl

theorem foldl_nearestStep_eq_none (o d : Vec3) :
    ∀ (rest : List Sphere) (acc : Option (Sphere × ℝ)),
      rest.foldl (nearestStep o d) acc = none ↔
        acc = none ∧ ∀ s ∈ rest, effDist o d s = none := by
  intro rest
  induction rest with
  | nil => intro acc; simp
  | cons s rest ih =>
    intro acc
    rw [List.foldl_cons, ih, nearestStep_eq]
    cases h : effDist o d s with
    | none => simp [h]
    | some t =>
      cases acc with
      | none => simp [h]
      | some p => obtain ⟨b, tb⟩ := p; by_cases hlt : t < tb <;> simp [h, hlt]

theorem nearestStep_none (o d : Vec3) (acc : Option (Sphere × ℝ)) (s : Sphere)
    (h : effDist o d s = none) : nearestStep o d acc s = acc := by
  rw [nearestStep_eq, h]

theorem nearestStep_some_none (o d : Vec3) (s : Sphere) (t : ℝ)
    (h : effDist o d s = some t) : nearestStep o d none s = some (s, t) := by
  rw [nearestStep_eq, h]

theorem nearestStep_some_some (o d : Vec3) (s : Sphere) (t : ℝ) (b : Sphere)
    (tb : ℝ) (h : effDist o d s = some t) :
    nearestStep o d (some (b, tb)) s =
      if t < tb then some (s, t) else some (b, tb) := by
  rw [nearestStep_eq, h]

theorem foldl_nearestStep_eq_some (o d : Vec3) :
    ∀ (rest : List Sphere) (acc : Option (Sphere × ℝ)) (c : Sphere) (tc : ℝ),
      rest.foldl (nearestStep o d) acc = some (c, tc) →
        (acc = some (c, tc) ∧
            ∀ s ∈ rest, ∀ t', effDist o d s = some t' → tc ≤ t') ∨
          ∃ l1 l2, rest = l1 ++ c :: l2 ∧ effDist o d c = some tc ∧
            (∀ b tb, acc = some (b, tb) → tc < tb) ∧
            (∀ s ∈ rest, ∀ t', effDist o d s = some t' → tc ≤ t') ∧
            (∀ s ∈ l1, ∀ t', effDist o d s = some t' → tc < t') := by
  intro rest
  induction rest with
  | nil => intro acc c tc h; exact Or.inl ⟨h, by simp⟩
  | cons s rest ih =>
    intro acc c tc h
    rw [List.foldl_cons] at h
    cases heffs : effDist o d s with
    | none =>
      rw [nearestStep_none o d acc s heffs] at h
      rcases ih acc c tc h with ⟨hacc, hmin⟩ |
        ⟨l1, l2, hdec, heffc, hlt, hmin, hstrict⟩
      · refine Or.inl ⟨hacc, ?_⟩
        intro x hx t' hx'
        rcases List.mem_cons.1 hx with rfl | hx
        · rw [heffs] at hx'; cases hx'
        · exact hmin x hx t' hx'
      · refine Or.inr ⟨s :: l1, l2, by rw [hdec]; rfl, heffc, hlt, ?_, ?_⟩
        · intro x hx t' hx'
          rcases List.mem_cons.1 hx with rfl | hx
          · rw [heffs] at hx'; cases hx'
          · exact hmin x hx t' hx'
        · intro x hx t' hx'
          rcases List.mem_cons.1 hx with rfl | hx
          · rw [heffs] at hx'; cases hx'
          · exact hstrict x hx t' hx'
    | some ts =>
      cases acc with
      | none =>
        rw [nearestStep_some_none o d s ts heffs] at h
        rcases ih _ c tc h with ⟨hacc, hmin⟩ |
          ⟨l1, l2, hdec, heffc, hlt, hmin, hstrict⟩
        · obtain ⟨rfl, rfl⟩ : s = c ∧ ts = tc := by simpa using hacc
          refine Or.inr ⟨[], rest, rfl, heffs,
            fun b tb hh => absurd hh (by simp), ?_, by simp⟩
          intro x hx t' hx'
          rcases List.mem_cons.1 hx with rfl | hx
          · rw [heffs] at hx'
            obtain rfl : ts = t' := by simpa using hx'
            exact le_refl _
          · exact hmin x hx t' hx'
        · have h1 : tc < ts := hlt s ts rfl
          refine Or.inr ⟨s :: l1, l2, by rw [hdec]; rfl, heffc,
            fun b tb hh => absurd hh (by simp), ?_, ?_⟩
          · intro x hx t' hx'
            rcases List.mem_cons.1 hx with rfl | hx
            · rw [heffs] at hx'
              obtain rfl : ts = t' := by simpa using hx'
              exact h1.le
            · exact hmin x hx t' hx'
          · intro x hx t' hx'
            rcases List.mem_cons.1 hx with rfl | hx
            · rw [heffs] at hx'
              obtain rfl : ts = t' := by simpa using hx'
              exact h1
            · exact hstrict x hx t' hx'
      | some p =>
        obtain ⟨b, tb⟩ := p
        rw [nearestStep_some_some o d s ts b tb heffs] at h
        by_cases hcmp : ts < tb
        · rw [if_pos hcmp] at h
          rcases ih _ c tc h with ⟨hacc, hmin⟩ |
            ⟨l1, l2, hdec, heffc, hlt, hmin, hstrict⟩
          · obtain ⟨rfl, rfl⟩ : s = c ∧ ts = tc := by simpa using hacc
            refine Or.inr ⟨[], rest, rfl, heffs, ?_, ?_, by simp⟩
            · intro b' tb' hh
              obtain ⟨rfl, rfl⟩ : b = b' ∧ tb = tb' := by simpa using hh
              exact hcmp
            · intro x hx t' hx'
              rcases List.mem_cons.1 hx with rfl | hx
              · rw [heffs] at hx'
                obtain rfl : ts = t' := by simpa using hx'
                exact le_refl _
              · exact hmin x hx t' hx'
          · have h1 : tc < ts := hlt s ts rfl
            refine Or.inr ⟨s :: l1, l2, by rw [hdec]; rfl, heffc, ?_, ?_, ?_⟩
            · intro b' tb' hh
              obtain ⟨rfl, rfl⟩ : b = b' ∧ tb = tb' := by simpa using hh
              exact h1.trans hcmp
            · intro x hx t' hx'
              rcases List.mem_cons.1 hx with rfl | hx
              · rw [heffs] at hx'
                obtain rfl : ts = t' := by simpa using hx'
                exact h1.le
              · exact hmin x hx t' hx'
            · intro x hx t' hx'
              rcases List.mem_cons.1 hx with rfl | hx
              · rw [heffs] at hx'
                obtain rfl : ts = t' := by simpa using hx'
                exact h1
              · exact hstrict x hx t' hx'
        · rw [if_neg hcmp] at h
          have htbts : tb ≤ ts := not_lt.1 hcmp
          rcases ih _ c tc h with ⟨hacc, hmin⟩ |
            ⟨l1, l2, hdec, heffc, hlt, hmin, hstrict⟩
          · obtain ⟨rfl, rfl⟩ : b = c ∧ tb = tc := by simpa using hacc
            refine Or.inl ⟨rfl, ?_⟩
            intro x hx t' hx'
            rcases List.mem_cons.1 hx with rfl | hx
            · rw [heffs] at hx'
              obtain rfl : ts = t' := by simpa using hx'
              exact htbts
            · exact hmin x hx t' hx'
          · have h1 : tc < tb := hlt b tb rfl
            refine Or.inr ⟨s :: l1, l2, by rw [hdec]; rfl, heffc, ?_, ?_, ?_⟩
            · intro b' tb' hh
              obtain ⟨rfl, rfl⟩ : b = b' ∧ tb = tb' := by simpa using hh
              exact h1
            · intro x hx t' hx'
              rcases List.mem_cons.1 hx with rfl | hx
              · rw [heffs] at hx'
                obtain rfl : ts = t' := by simpa using hx'
                exact (h1.trans_le htbts).le
              · exact hmin x hx t' hx'
            · intro x hx t' hx'
              rcases List.mem_cons.1 hx with rfl | hx
              · rw [heffs] at hx'
                obtain rfl : ts = t' := by simpa using hx'
                exact h1.trans_le htbts
              · exact hstrict x hx t' hx'

theorem effDist_eq_some_iff (o d : Vec3) (s : Sphere) (t : ℝ) :
    effDist o d s = some t ↔
      ∃ t0 t1, s.intersect o d = some (t0, t1) ∧
        t = if t0 < 0 then t1 else t0 := by
  unfold effDist
  cases h : s.intersect o d with
  | none => simp
  | some p =>
    obtain ⟨t0, t1⟩ := p
    simp only [Option.some.injEq, Prod.mk.injEq]
    constructor
    · exact fun hh => ⟨t0, t1, ⟨rfl, rfl⟩, hh.symm⟩
    · rintro ⟨a, b, ⟨rfl, rfl⟩, hh⟩; exact hh.symm

theorem effDist_nonneg (o d : Vec3) (s : Sphere) (t : ℝ)
    (h : effDist o d s = some t) : 0 ≤ t := by
  rcases (effDist_eq_some_iff o d s t).1 h with ⟨t0, t1, hint, hval⟩
  rcases (intersect_eq_some_iff s o d t0 t1).1 hint with ⟨htca, -, ht0, ht1⟩
  have hthc : 0 ≤ thcOf s o d := Real.sqrt_nonneg _
  subst hval
  split_ifs with h0
  · rw [ht1]; positivity
  · exact not_lt.1 h0

theorem foldl_nearestStep_nonneg (o d : Vec3) :
    ∀ (rest : List Sphere) (acc : Option (Sphere × ℝ)),
      (∀ b tb, acc = some (b, tb) → 0 ≤ tb) →
      ∀ c tc, rest.foldl (nearestStep o d) acc = some (c, tc) → 0 ≤ tc := by
  intro rest acc hacc c tc h
  rcases foldl_nearestStep_eq_some o d rest acc c tc h with ⟨hacc', -⟩ |
    ⟨-, -, -, heff, -, -, -⟩
  · exact hacc c tc hacc'
  · exact effDist_nonneg o d c tc heff

theorem trace_of_no_hit (o d : Vec3) (sph : List Sphere) (depth : ℕ)
    (h : findNearest sph o d = none) : trace o d sph depth = Vec3.ofScalar 2 := by
  rw [trace.eq_def, h]

theorem trace_of_hit (o d : Vec3) (sph : List Sphere) (depth : ℕ) (s : Sphere)
    (t : ℝ) (h : findNearest sph o d = some (s, t)) :
    trace o d sph depth = surfaceShade o d sph depth s t + s.emissionColor := by
  rw [trace.eq_def, h]
  rfl

theorem traceFuel_eq_trace :
    ∀ (fuel : ℕ) (o d : Vec3) (sph : List Sphere) (depth : ℕ),
      MAX_RAY_DEPTH + 1 - depth ≤ fuel → 0 < fuel →
      traceFuel fuel o d sph depth = some (trace o d sph depth) := by
  intro fuel
  induction fuel with
  | zero => intro o d sph depth hle hpos; omega
  | succ fuel ih =>
    intro o d sph depth hle hpos
    cases hfind : findNearest sph o d with
    | none =>
      rw [trace_of_no_hit o d sph depth hfind]
      simp only [traceFuel, hfind]
    | some p =>
      obtain ⟨s, t⟩ := p
      rw [trace_of_hit o d sph depth s t hfind]
      by_cases hcond : (s.transparency > 0 ∨ s.reflection > 0) ∧
        depth < MAX_RAY_DEPTH
      · have hb1 : MAX_RAY_DEPTH + 1 - (depth + 1) ≤ fuel := by
          have := hcond.2
          simp only [MAX_RAY_DEPTH] at *
          omega
        have hb2 : 0 < fuel := by
          have := hcond.2
          simp only [MAX_RAY_DEPTH] at *
          omega
        by_cases htr : s.transparency ≠ 0
        · simp only [traceFuel, hfind, surfaceShade, hcond, htr, and_true,
            or_true, if_true, ite_true, ne_eq, not_false_iff,
            ih _ _ sph (depth + 1) hb1 hb2]
        · simp only [traceFuel, hfind, surfaceShade, hcond, htr, and_true,
            or_true, if_true, ite_true, if_false, ite_false, ne_eq,
            not_false_iff, not_not, ih _ _ sph (depth + 1) hb1 hb2]
      · simp only [traceFuel, hfind, surfaceShade, hcond, if_false,
          ite_false]

theorem trace_depth_exhausted (o d : Vec3) (sph : List Sphere) (depth : ℕ)
    (h : MAX_RAY_DEPTH ≤ depth) : trace o d sph depth = traceBase o d sph := by
  cases hfind : findNearest sph o d with
  | none =>
    rw [trace_of_no_hit o d sph depth hfind]
    unfold traceBase
    rw [hfind]
  | some p =>
    obtain ⟨s, t⟩ := p
    rw [trace_of_hit o d sph depth s t hfind]
    have hnc : ¬((s.transparency > 0 ∨ s.reflection > 0) ∧
        depth < MAX_RAY_DEPTH) :=
      fun hc => absurd hc.2 (not_lt.2 h)
    unfold traceBase
    rw [hfind]
    simp only [surfaceShade, hnc, if_false, ite_false]

theorem occluded_iff (spheres : List Sphere) (i : ℕ) (origin dir : Vec3) :
    occluded spheres i origin dir = true ↔
      ∃ p ∈ spheres.enum, p.1 ≠ i ∧ (p.2.intersect origin dir).isSome = true := by
  unfold occluded
  rw [List.any_eq_true]
  simp only [Bool.and_eq_true, bne_iff_ne, ne_eq]

theorem diffuse_foldl_aux (spheres : List Sphere) (sphere : Sphere)
    (phit nhit : Vec3) :
    ∀ (l : List (ℕ × Sphere)) (init : Vec3),
      l.foldl
        (fun acc p =>
          if p.2.emissionColor.x > 0 then
            let lightDirection := (p.2.center - phit).normalize
            let transmission : Vec3 :=
              if occluded spheres p.1 (phit + nhit.smul bias) lightDirection
              then 0 else Vec3.ofScalar 1
            acc + (sphere.surfaceColor * transmission).smul
                (max 0 (nhit.dot lightDirection)) * p.2.emissionColor
          else acc)
        init =
      init + (l.map (fun p =>
        if p.2.emissionColor.x > 0 then
          (sphere.surfaceColor *
            (if occluded spheres p.1 (phit + nhit.smul bias)
                ((p.2.center - phit).normalize)
             then 0 else Vec3.ofScalar 1)).smul
            (max 0 (nhit.dot ((p.2.center - phit).normalize))) *
            p.2.emissionColor
        else 0)).sum := by
  intro l
  induction l with
  | nil => intro init; simp
  | cons p l ih =>
    intro init
    rw [List.foldl_cons, ih, List.map_cons, List.sum_cons]
    by_cases hp : p.2.emissionColor.x > 0
    · simp only [hp, if_true, ite_true]
      rw [add_assoc]
    · simp only [hp, if_false, ite_false]
      rw [zero_add]

theorem diffuseColor_eq_sum (spheres : List Sphere) (sphere : Sphere)
    (phit nhit : Vec3) :
    diffuseColor spheres sphere phit nhit =
      (spheres.enum.map (fun p =>
        if p.2.emissionColor.x > 0 then
          (sphere.surfaceColor *
            (if occluded spheres p.1 (phit + nhit.smul bias)
                ((p.2.center - phit).normalize)
             then 0 else Vec3.ofScalar 1)).smul
            (max 0 (nhit.dot ((p.2.center - phit).normalize))) *
            p.2.emissionColor
        else 0)).sum := by
  unfold diffuseColor
  rw [diffuse_foldl_aux spheres sphere phit nhit spheres.enum 0, zero_add]

theorem surfaceShade_diffuse (o d : Vec3) (sph : List Sphere) (depth : ℕ)
    (s : Sphere) (t : ℝ)
    (h : ¬((s.transparency > 0 ∨ s.reflection > 0) ∧ depth < MAX_RAY_DEPTH)) :
    surfaceShade o d sph depth s t =
      diffuseColor sph s (o + d.smul t)
        (if d.dot ((o + d.smul t) - s.center).normalize > 0
         then -((o + d.smul t) - s.center).normalize
         else ((o + d.smul t) - s.center).normalize) := by
  simp only [surfaceShade, h, if_false, ite_false]

theorem normalize_eval (a b c n : ℝ) (hn : 0 < n)
    (h : a * a + b * b + c * c = n * n) :
    (⟨a, b, c⟩ : Vec3).normalize = ⟨a / n, b / n, c / n⟩ := by
  unfold Vec3.normalize Vec3.length Vec3.length2
  rw [Vec3.dot_def]
  simp only [Vec3.mk_x, Vec3.mk_y, Vec3.mk_z]
  rw [h, Real.sqrt_mul_self hn.le]
  apply Vec3.ext3 <;> simp [div_eq_mul_inv]

theorem sqrt_four : Real.sqrt 4 = 2 := by
  rw [show (4 : ℝ) = 2 ^ 2 by norm_num, Real.sqrt_sq (by norm_num : (0:ℝ) ≤ 2)]

/-- A family of test spheres sitting on the camera axis at distance 10 with
radius 2, used to evaluate the tracer on concrete inputs. -/
def axisSphere (sc : Vec3) (refl transp : ℝ) (ec : Vec3) : Sphere :=
  mkSphere ⟨0, 0, -10⟩ 2 sc refl transp ec

theorem axisSphere_intersect (sc : Vec3) (refl transp : ℝ) (ec : Vec3) :
    (axisSphere sc refl transp ec).intersect ⟨0, 0, 0⟩ ⟨0, 0, -1⟩ =
      some (8, 12) := by
  refine (intersect_eq_some_iff _ _ _ 8 12).2 ?_
  have htca : tcaOf (axisSphere sc refl transp ec) ⟨0, 0, 0⟩ ⟨0, 0, -1⟩ = 10 := by
    simp [tcaOf, axisSphere, mkSphere, Vec3.dot_def]
  have hd2 : d2Of (axisSphere sc refl transp ec) ⟨0, 0, 0⟩ ⟨0, 0, -1⟩ = 0 := by
    simp [d2Of, tcaOf, axisSphere, mkSphere, Vec3.dot_def]
  have hthc : thcOf (axisSphere sc refl transp ec) ⟨0, 0, 0⟩ ⟨0, 0, -1⟩ = 2 := by
    rw [thcOf, hd2]
    simp only [axisSphere, mkSphere, sub_zero]
    norm_num [sqrt_four]
  refine ⟨by rw [htca]; norm_num, ?_, by rw [htca, hthc]; norm_num,
    by rw [htca, hthc]; norm_num⟩
  rw [hd2]
  simp [axisSphere, mkSphere]

theorem axisSphere_findNearest (sc : Vec3) (refl transp : ℝ) (ec : Vec3) :
    findNearest [axisSphere sc refl transp ec] ⟨0, 0, 0⟩ ⟨0, 0, -1⟩ =
      some (axisSphere sc refl transp ec, 8) := by
  unfold findNearest
  rw [List.foldl_cons, List.foldl_nil]
  unfold nearestStep
  rw [axisSphere_intersect]
  norm_num

theorem axis_phit :
    (⟨0, 0, 0⟩ : Vec3) + (⟨0, 0, -1⟩ : Vec3).smul 8 = ⟨0, 0, -8⟩ := by
  apply Vec3.ext3 <;> simp

theorem axis_nhit0 (sc : Vec3) (refl transp : ℝ) (ec : Vec3) :
    ((⟨0, 0, 0⟩ : Vec3) + (⟨0, 0, -1⟩ : Vec3).smul 8 -
        (axisSphere sc refl transp ec).center).normalize = ⟨0, 0, 1⟩ := by
  have h1 : (⟨0, 0, 0⟩ : Vec3) + (⟨0, 0, -1⟩ : Vec3).smul 8 -
      (axisSphere sc refl transp ec).center = ⟨0, 0, 2⟩ := by
    apply Vec3.ext3 <;> simp [axisSphere, mkSphere] <;> norm_num
  rw [h1, normalize_eval 0 0 2 2 (by norm_num) (by norm_num)]
  apply Vec3.ext3 <;> norm_num

theorem axis_not_inside (sc : Vec3) (refl transp : ℝ) (ec : Vec3) :
    ¬((⟨0, 0, -1⟩ : Vec3).dot
        ((⟨0, 0, 0⟩ : Vec3) + (⟨0, 0, -1⟩ : Vec3).smul 8 -
          (axisSphere sc refl transp ec).center).normalize > 0) := by
  rw [axis_nhit0]
  simp [Vec3.dot_def]

/-- C1: `Sphere::intersect` reports no hit when `tca < 0` or when
`d2 = l·l − tca²` exceeds `radius²`; otherwise it hits with
`t0 = tca − thc` and `t1 = tca + thc` for `thc = sqrt(radius² − d2)`, so
`t0 ≤ t1`; and a sphere centered at the origin with radius `r`, seen from
`(0,0,5)` along `(0,0,−1)`, yields `t0 = 5 − r`, `t1 = 5 + r`. -/
theorem C1_intersect_geometric_solution (o d : Vec3) (s : Sphere)
    (hs : s.radius2 = s.radius * s.radius) (r : ℝ) (hr : 0 ≤ r) :
    (tcaOf s o d < 0 → s.intersect o d = none) ∧
    (d2Of s o d > s.radius * s.radius → s.intersect o d = none) ∧
    (∀ t0 t1, s.intersect o d = some (t0, t1) →
      thcOf s o d = Real.sqrt (s.radius * s.radius - d2Of s o d) ∧
      t0 = tcaOf s o d - thcOf s o d ∧ t1 = tcaOf s o d + thcOf s o d ∧
      t0 ≤ t1) ∧
    (0 ≤ tcaOf s o d → d2Of s o d ≤ s.radius * s.radius →
      s.intersect o d =
        some (tcaOf s o d - thcOf s o d, tcaOf s o d + thcOf s o d)) ∧
    (mkSphere 0 r (Vec3.ofScalar 1)).intersect ⟨0, 0, 5⟩ ⟨0, 0, -1⟩ =
      some (5 - r, 5 + r) := by
  refine ⟨?_, ?_, ?_, ?_, ?_⟩
  · intro h
    exact (intersect_eq_none_iff s o d).2 (Or.inl h)
  · intro h
    exact (intersect_eq_none_iff s o d).2 (Or.inr (by rwa [hs]))
  · intro t0 t1 h
    rcases (intersect_eq_some_iff s o d t0 t1).1 h with ⟨-, -, ht0, ht1⟩
    have hthc : 0 ≤ thcOf s o d := Real.sqrt_nonneg _
    exact ⟨by rw [thcOf, hs], ht0, ht1, by rw [ht0, ht1]; linarith⟩
  · intro h1 h2
    exact (intersect_eq_some_iff s o d _ _).2 ⟨h1, by rwa [hs], rfl, rfl⟩
  · have htca : tcaOf (mkSphere 0 r (Vec3.ofScalar 1)) ⟨0, 0, 5⟩ ⟨0, 0, -1⟩
        = 5 := by
      simp [tcaOf, mkSphere, Vec3.dot_def]
    have hd2 : d2Of (mkSphere 0 r (Vec3.ofScalar 1)) ⟨0, 0, 5⟩ ⟨0, 0, -1⟩
        = 0 := by
      simp [d2Of, tcaOf, mkSphere, Vec3.dot_def]
    have hthc : thcOf (mkSphere 0 r (Vec3.ofScalar 1)) ⟨0, 0, 5⟩ ⟨0, 0, -1⟩
        = r := by
      rw [thcOf, hd2]
      simp only [mkSphere, sub_zero]
      exact Real.sqrt_mul_self hr
    refine (intersect_eq_some_iff _ _ _ _ _).2
      ⟨by rw [htca]; norm_num, ?_, by rw [htca, hthc], by rw [htca, hthc]⟩
    rw [hd2]
    simp [mkSphere]
    positivity

/-- C1 witness: the general theorem applied at the concrete radius 3. -/
theorem C1_intersect_geometric_solution_witness :
    (mkSphere 0 3 (Vec3.ofScalar 1)).intersect ⟨0, 0, 5⟩ ⟨0, 0, -1⟩ =
      some (5 - 3, 5 + 3) :=
  (C1_intersect_geometric_solution ⟨0, 0, 5⟩ ⟨0, 0, -1⟩
    (mkSphere 0 3 (Vec3.ofScalar 1)) rfl 3 (by norm_num)).2.2.2.2

/-- C2: `trace`'s nearest-hit search: no recorded hit (in particular an
empty scene) returns the fixed background color `(2,2,2)` for every depth
and direction; the loop records no hit exactly when every sphere's
effective distance is `none`; and a recorded hit is a sphere of the scene
achieving the minimum effective distance (`t0`, or `t1` when `t0 < 0`),
with every earlier sphere strictly farther, so the first-encountered
sphere wins ties. -/
theorem C2_nearest_hit_background :
    (∀ (o d : Vec3) (depth : ℕ), trace o d [] depth = Vec3.ofScalar 2) ∧
    (∀ (o d : Vec3) (sph : List Sphere) (depth : ℕ),
      findNearest sph o d = none → trace o d sph depth = Vec3.ofScalar 2) ∧
    (∀ (o d : Vec3) (sph : List Sphere),
      findNearest sph o d = none ↔ ∀ s ∈ sph, effDist o d s = none) ∧
    (∀ (o d : Vec3) (sph : List Sphere) (c : Sphere) (tc : ℝ),
      findNearest sph o d = some (c, tc) →
        ∃ l1 l2, sph = l1 ++ c :: l2 ∧ effDist o d c = some tc ∧
          (∀ s ∈ sph, ∀ t', effDist o d s = some t' → tc ≤ t') ∧
          (∀ s ∈ l1, ∀ t', effDist o d s = some t' → tc < t')) := by
  refine ⟨?_, ?_, ?_, ?_⟩
  · intro o d depth
    exact trace_of_no_hit o d [] depth rfl
  · intro o d sph depth h
    exact trace_of_no_hit o d sph depth h
  · intro o d sph
    rw [findNearest, foldl_nearestStep_eq_none]
    simp
  · intro o d sph c tc h
    rcases foldl_nearestStep_eq_some o d sph none c tc h with ⟨hacc, -⟩ |
      ⟨l1, l2, hdec, heff, -, hmin, hstrict⟩
    · exact absurd hacc (by simp)
    · exact ⟨l1, l2, hdec, heff, hmin, hstrict⟩

/-- C3: the recursion of `trace` is bounded: a call budget of
`MAX_RAY_DEPTH + 1 − depth` invocations always suffices (so every chain of
recursive calls has length at most `MAX_RAY_DEPTH + 1`), and once
`depth ≥ MAX_RAY_DEPTH` the result is the non-recursive diffuse-only
computation `traceBase`. -/
theorem C3_depth_bound :
    (∀ (fuel : ℕ) (o d : Vec3) (sph : List Sphere) (depth : ℕ),
      MAX_RAY_DEPTH + 1 - depth ≤ fuel → 0 < fuel →
      traceFuel fuel o d sph depth = some (trace o d sph depth)) ∧
    (∀ (o d : Vec3) (sph : List Sphere) (depth : ℕ),
      MAX_RAY_DEPTH ≤ depth → trace o d sph depth = traceBase o d sph) :=
  ⟨traceFuel_eq_trace, trace_depth_exhausted⟩

/-- C4: with a reflective or transparent hit inside the depth budget,
`trace` computes `fresnel = mix((1 − facingRatio)³, 1, 0.1)`, recurses along
the normalized reflection direction from `hitPoint + normal·bias` at
`depth + 1`, and returns
`(reflection·fresnel + refraction·(1 − fresnel)·transparency) · surfaceColor`
(plus emission); the refraction term is the zero vector for an opaque
sphere. -/
theorem C4_specular_branch (o d : Vec3) (sph : List Sphere) (depth : ℕ)
    (s : Sphere) (tnear : ℝ)
    (hfind : findNearest sph o d = some (s, tnear))
    (hcond : s.transparency > 0 ∨ s.reflection > 0)
    (hdepth : depth < MAX_RAY_DEPTH) :
    trace o d sph depth =
      (let phit := o + d.smul tnear
       let nhit0 := (phit - s.center).normalize
       let nhit := if d.dot nhit0 > 0 then -nhit0 else nhit0
       let facingRatio := -(d.dot nhit)
       let fresnel := mix ((1 - facingRatio) ^ 3) 1 0.1
       let reflDir := (d - (nhit.smul 2).smul (d.dot nhit)).normalize
       let reflectionColor := trace (phit + nhit.smul bias) reflDir sph
         (depth + 1)
       let refractionColor : Vec3 :=
         if s.transparency ≠ 0 then
           let eta := if d.dot nhit0 > 0 then (1.1 : ℝ) else 1 / 1.1
           let cosi := -(nhit.dot d)
           let k := 1 - eta * eta * (1 - cosi * cosi)
           trace (phit - nhit.smul bias)
             ((d.smul eta + nhit.smul (eta * cosi - Real.sqrt k)).normalize)
             sph (depth + 1)
         else 0
       (reflectionColor.smul fresnel +
           (refractionColor.smul (1 - fresnel)).smul s.transparency) *
         s.surfaceColor + s.emissionColor) ∧
    (s.transparency = 0 →
      trace o d sph depth =
        (let phit := o + d.smul tnear
         let nhit0 := (phit - s.center).normalize
         let nhit := if d.dot nhit0 > 0 then -nhit0 else nhit0
         let facingRatio := -(d.dot nhit)
         let fresnel := mix ((1 - facingRatio) ^ 3) 1 0.1
         let reflDir := (d - (nhit.smul 2).smul (d.dot nhit)).normalize
         let reflectionColor := trace (phit + nhit.smul bias) reflDir sph
           (depth + 1)
         (reflectionColor.smul fresnel +
             ((0 : Vec3).smul (1 - fresnel)).smul s.transparency) *
           s.surfaceColor + s.emissionColor)) := by
  constructor
  · rw [trace_of_hit o d sph depth s tnear hfind]
    simp only [surfaceShade, hcond, hdepth, and_self, and_true, true_and,
      if_true, ite_true]
  · intro htr0
    rw [trace_of_hit o d sph depth s tnear hfind]
    simp only [surfaceShade, hcond, hdepth, and_self, and_true, true_and,
      if_true, ite_true]
    simp [htr0]

/-- C4 witness: the branch equation at a concrete purely reflective
sphere hit by an axial ray. -/
theorem C4_specular_branch_witness :
    trace ⟨0, 0, 0⟩ ⟨0, 0, -1⟩ [axisSphere ⟨1, 0, 0⟩ 1 0 0] 0 =
      (let phit := (⟨0, 0, 0⟩ : Vec3) + (⟨0, 0, -1⟩ : Vec3).smul 8
       let nhit0 := (phit - (axisSphere ⟨1, 0, 0⟩ 1 0 0).center).normalize
       let nhit := if (⟨0, 0, -1⟩ : Vec3).dot nhit0 > 0 then -nhit0 else nhit0
       let facingRatio := -((⟨0, 0, -1⟩ : Vec3).dot nhit)
       let fresnel := mix ((1 - facingRatio) ^ 3) 1 0.1
       let reflDir := ((⟨0, 0, -1⟩ : Vec3) -
         (nhit.smul 2).smul ((⟨0, 0, -1⟩ : Vec3).dot nhit)).normalize
       let reflectionColor := trace (phit + nhit.smul bias) reflDir
         [axisSphere ⟨1, 0, 0⟩ 1 0 0] (0 + 1)
       let refractionColor : Vec3 :=
         if (axisSphere ⟨1, 0, 0⟩ 1 0 0).transparency ≠ 0 then
           let eta := if (⟨0, 0, -1⟩ : Vec3).dot nhit0 > 0 then (1.1 : ℝ)
             else 1 / 1.1
           let cosi := -(nhit.dot ⟨0, 0, -1⟩)
           let k := 1 - eta * eta * (1 - cosi * cosi)
           trace (phit - nhit.smul bias)
             (((⟨0, 0, -1⟩ : Vec3).smul eta +
               nhit.smul (eta * cosi - Real.sqrt k)).normalize)
             [axisSphere ⟨1, 0, 0⟩ 1 0 0] (0 + 1)
         else 0
       (reflectionColor.smul fresnel +
           (refractionColor.smul (1 - fresnel)).smul
             (axisSphere ⟨1, 0, 0⟩ 1 0 0).transparency) *
         (axisSphere ⟨1, 0, 0⟩ 1 0 0).surfaceColor +
         (axisSphere ⟨1, 0, 0⟩ 1 0 0).emissionColor) :=
  (C4_specular_branch ⟨0, 0, 0⟩ ⟨0, 0, -1⟩ [axisSphere ⟨1, 0, 0⟩ 1 0 0] 0
    (axisSphere ⟨1, 0, 0⟩ 1 0 0) 8
    (axisSphere_findNearest ⟨1, 0, 0⟩ 1 0 0)
    (Or.inr (by norm_num [axisSphere, mkSphere]))
    (by norm_num [MAX_RAY_DEPTH])).1

/-- C5: at a hit the normal is negated exactly when `direction·normal > 0`
(the inside case), `eta` is `ior = 1.1` inside and `1/ior` outside, and for
a transparent sphere inside the depth budget `trace` recurses along
`refrDir = normalize(direction·eta + normal·(eta·cosi − sqrt k))` with
`cosi = −normal·direction`, `k = 1 − eta²(1 − cosi²)`, from origin
`hitPoint − normal·bias` at `depth + 1`. -/
theorem C5_refraction_branch (o d : Vec3) (sph : List Sphere) (depth : ℕ)
    (s : Sphere) (tnear : ℝ)
    (hfind : findNearest sph o d = some (s, tnear))
    (htr : s.transparency > 0)
    (hdepth : depth < MAX_RAY_DEPTH) :
    trace o d sph depth =
      (let phit := o + d.smul tnear
       let nhit0 := (phit - s.center).normalize
       let nhit := if d.dot nhit0 > 0 then -nhit0 else nhit0
       let facingRatio := -(d.dot nhit)
       let fresnel := mix ((1 - facingRatio) ^ 3) 1 0.1
       let reflDir := (d - (nhit.smul 2).smul (d.dot nhit)).normalize
       let reflectionColor := trace (phit + nhit.smul bias) reflDir sph
         (depth + 1)
       let ior : ℝ := 1.1
       let eta := if d.dot nhit0 > 0 then ior else 1 / ior
       let cosi := -(nhit.dot d)
       let k := 1 - eta * eta * (1 - cosi * cosi)
       let refrDir := (d.smul eta + nhit.smul (eta * cosi - Real.sqrt k)).normalize
       let refractionColor := trace (phit - nhit.smul bias) refrDir sph
         (depth + 1)
       (reflectionColor.smul fresnel +
           (refractionColor.smul (1 - fresnel)).smul s.transparency) *
         s.surfaceColor + s.emissionColor) ∧
    (d.dot ((o + d.smul tnear) - s.center).normalize > 0 →
      (if d.dot ((o + d.smul tnear) - s.center).normalize > 0
        then -((o + d.smul tnear) - s.center).normalize
        else ((o + d.smul tnear) - s.center).normalize) =
          -((o + d.smul tnear) - s.center).normalize ∧
      (if d.dot ((o + d.smul tnear) - s.center).normalize > 0
        then (1.1 : ℝ) else 1 / 1.1) = 1.1) ∧
    (¬(d.dot ((o + d.smul tnear) - s.center).normalize > 0) →
      (if d.dot ((o + d.smul tnear) - s.center).normalize > 0
        then -((o + d.smul tnear) - s.center).normalize
        else ((o + d.smul tnear) - s.center).normalize) =
          ((o + d.smul tnear) - s.center).normalize ∧
      (if d.dot ((o + d.smul tnear) - s.center).normalize > 0
        then (1.1 : ℝ) else 1 / 1.1) = 1 / 1.1) := by
  refine ⟨?_, fun h => ⟨if_pos h, if_pos h⟩, fun h => ⟨if_neg h, if_neg h⟩⟩
  rw [trace_of_hit o d sph depth s tnear hfind]
  simp only [surfaceShade, htr, htr.ne', hdepth, true_or, or_true, if_true,
    ite_true, and_self, and_true, true_and, ne_eq, not_false_eq_true,
    not_false_iff]

/-- C5 witness: the refraction equation at a concrete half-transparent
sphere hit by an axial ray. -/
theorem C5_refraction_branch_witness :
    trace ⟨0, 0, 0⟩ ⟨0, 0, -1⟩ [axisSphere ⟨1, 0, 0⟩ 1 (1/2) 0] 0 =
      (let phit := (⟨0, 0, 0⟩ : Vec3) + (⟨0, 0, -1⟩ : Vec3).smul 8
       let nhit0 := (phit - (axisSphere ⟨1, 0, 0⟩ 1 (1/2) 0).center).normalize
       let nhit := if (⟨0, 0, -1⟩ : Vec3).dot nhit0 > 0 then -nhit0 else nhit0
       let facingRatio := -((⟨0, 0, -1⟩ : Vec3).dot nhit)
       let fresnel := mix ((1 - facingRatio) ^ 3) 1 0.1
       let reflDir := ((⟨0, 0, -1⟩ : Vec3) -
         (nhit.smul 2).smul ((⟨0, 0, -1⟩ : Vec3).dot nhit)).normalize
       let reflectionColor := trace (phit + nhit.smul bias) reflDir
         [axisSphere ⟨1, 0, 0⟩ 1 (1/2) 0] (0 + 1)
       let ior : ℝ := 1.1
       let eta := if (⟨0, 0, -1⟩ : Vec3).dot nhit0 > 0 then ior else 1 / ior
       let cosi := -(nhit.dot ⟨0, 0, -1⟩)
       let k := 1 - eta * eta * (1 - cosi * cosi)
       let refrDir := ((⟨0, 0, -1⟩ : Vec3).smul eta +
         nhit.smul (eta * cosi - Real.sqrt k)).normalize
       let refractionColor := trace (phit - nhit.smul bias) refrDir
         [axisSphere ⟨1, 0, 0⟩ 1 (1/2) 0] (0 + 1)
       (reflectionColor.smul fresnel +
           (refractionColor.smul (1 - fresnel)).smul
             (axisSphere ⟨1, 0, 0⟩ 1 (1/2) 0).transparency) *
         (axisSphere ⟨1, 0, 0⟩ 1 (1/2) 0).surfaceColor +
         (axisSphere ⟨1, 0, 0⟩ 1 (1/2) 0).emissionColor) :=
  (C5_refraction_branch ⟨0, 0, 0⟩ ⟨0, 0, -1⟩ [axisSphere ⟨1, 0, 0⟩ 1 (1/2) 0]
    0 (axisSphere ⟨1, 0, 0⟩ 1 (1/2) 0) 8
    (axisSphere_findNearest ⟨1, 0, 0⟩ 1 (1/2) 0)
    (by norm_num [axisSphere, mkSphere])
    (by norm_num [MAX_RAY_DEPTH])).1

open scoped Classical

theorem diffuseColor_eq_sum_exists (spheres : List Sphere) (sphere : Sphere)
    (phit nhit : Vec3) :
    diffuseColor spheres sphere phit nhit =
      (spheres.enum.map (fun p =>
        if p.2.emissionColor.x > 0 then
          (sphere.surfaceColor *
            (if ∃ q ∈ spheres.enum, q.1 ≠ p.1 ∧
                (q.2.intersect (phit + nhit.smul bias)
                  ((p.2.center - phit).normalize)).isSome = true
             then 0 else Vec3.ofScalar 1)).smul
            (max 0 (nhit.dot ((p.2.center - phit).normalize))) *
            p.2.emissionColor
        else 0)).sum := by
  rw [diffuseColor_eq_sum]
  congr 1
  congr 1
  funext p
  by_cases hp : p.2.emissionColor.x > 0
  · simp only [hp, if_true, ite_true]
    rw [if_congr (occluded_iff spheres p.1 (phit + nhit.smul bias)
      ((p.2.center - phit).normalize)) rfl rfl]
  · simp only [hp, if_false, ite_false]

/-- C6: in the diffuse branch the surface color is the sum, over the scene's
spheres with positive emission (the lights), of
`surfaceColor · transmission · max(0, normal·lightDir) · emissionColor`,
where `lightDir = normalize(light.center − hitPoint)` and the transmission
is exactly 0 when some sphere other than the light itself intersects the
shadow ray from `hitPoint + normal·bias`, and exactly 1 otherwise. -/
theorem C6_diffuse_branch (o d : Vec3) (sph : List Sphere) (depth : ℕ)
    (s : Sphere) (tnear : ℝ)
    (hfind : findNearest sph o d = some (s, tnear))
    (hbranch : ¬((s.transparency > 0 ∨ s.reflection > 0) ∧
      depth < MAX_RAY_DEPTH)) :
    trace o d sph depth =
      (let phit := o + d.smul tnear
       let nhit0 := (phit - s.center).normalize
       let nhit := if d.dot nhit0 > 0 then -nhit0 else nhit0
       (sph.enum.map (fun p =>
         if p.2.emissionColor.x > 0 then
           (s.surfaceColor *
             (if ∃ q ∈ sph.enum, q.1 ≠ p.1 ∧
                 (q.2.intersect (phit + nhit.smul bias)
                   ((p.2.center - phit).normalize)).isSome = true
              then 0 else Vec3.ofScalar 1)).smul
             (max 0 (nhit.dot ((p.2.center - phit).normalize))) *
             p.2.emissionColor
         else 0)).sum + s.emissionColor) := by
  rw [trace_of_hit o d sph depth s tnear hfind,
    surfaceShade_diffuse o d sph depth s tnear hbranch,
    diffuseColor_eq_sum_exists]

/-- C6 witness: the diffuse equation at a concrete opaque non-reflective
sphere hit by an axial ray. -/
theorem C6_diffuse_branch_witness :
    trace ⟨0, 0, 0⟩ ⟨0, 0, -1⟩ [axisSphere ⟨1, 0, 0⟩ 0 0 0] 0 =
      (let phit := (⟨0, 0, 0⟩ : Vec3) + (⟨0, 0, -1⟩ : Vec3).smul 8
       let nhit0 := (phit - (axisSphere ⟨1, 0, 0⟩ 0 0 0).center).normalize
       let nhit := if (⟨0, 0, -1⟩ : Vec3).dot nhit0 > 0 then -nhit0 else nhit0
       ([axisSphere ⟨1, 0, 0⟩ 0 0 0].enum.map (fun p =>
         if p.2.emissionColor.x > 0 then
           ((axisSphere ⟨1, 0, 0⟩ 0 0 0).surfaceColor *
             (if ∃ q ∈ [axisSphere ⟨1, 0, 0⟩ 0 0 0].enum, q.1 ≠ p.1 ∧
                 (q.2.intersect (phit + nhit.smul bias)
                   ((p.2.center - phit).normalize)).isSome = true
              then 0 else Vec3.ofScalar 1)).smul
             (max 0 (nhit.dot ((p.2.center - phit).normalize))) *
             p.2.emissionColor
         else 0)).sum + (axisSphere ⟨1, 0, 0⟩ 0 0 0).emissionColor) :=
  C6_diffuse_branch ⟨0, 0, 0⟩ ⟨0, 0, -1⟩ [axisSphere ⟨1, 0, 0⟩ 0 0 0] 0
    (axisSphere ⟨1, 0, 0⟩ 0 0 0) 8
    (axisSphere_findNearest ⟨1, 0, 0⟩ 0 0 0)
    (by norm_num [axisSphere, mkSphere])

theorem glow_trace :
    trace ⟨0, 0, 0⟩ ⟨0, 0, -1⟩
      [axisSphere (Vec3.ofScalar 1) 0 0 (Vec3.ofScalar 5)] 0 = ⟨5, 5, 5⟩ := by
  rw [trace_of_hit ⟨0, 0, 0⟩ ⟨0, 0, -1⟩ _ 0 _ 8
    (axisSphere_findNearest (Vec3.ofScalar 1) 0 0 (Vec3.ofScalar 5))]
  rw [surfaceShade_diffuse _ _ _ _ _ _ (by norm_num [axisSphere, mkSphere])]
  rw [if_neg (axis_not_inside (Vec3.ofScalar 1) 0 0 (Vec3.ofScalar 5))]
  rw [axis_nhit0, axis_phit]
  have hld : (axisSphere (Vec3.ofScalar 1) 0 0 (Vec3.ofScalar 5)).center -
      (⟨0, 0, -8⟩ : Vec3) = ⟨0, 0, -2⟩ := by
    apply Vec3.ext3 <;> simp [axisSphere, mkSphere] <;> norm_num
  have hldn : ((axisSphere (Vec3.ofScalar 1) 0 0 (Vec3.ofScalar 5)).center -
      (⟨0, 0, -8⟩ : Vec3)).normalize = ⟨0, 0, -1⟩ := by
    rw [hld, normalize_eval 0 0 (-2) 2 (by norm_num) (by norm_num)]
    apply Vec3.ext3 <;> norm_num
  simp only [diffuseColor, List.enum, List.enumFrom, List.foldl_cons,
    List.foldl_nil, hldn]
  rw [if_pos (by norm_num [axisSphere, mkSphere] :
    (axisSphere (Vec3.ofScalar 1) 0 0 (Vec3.ofScalar 5)).emissionColor.x > 0)]
  have hocc : occluded [axisSphere (Vec3.ofScalar 1) 0 0 (Vec3.ofScalar 5)] 0
      ((⟨0, 0, -8⟩ : Vec3) + (⟨0, 0, 1⟩ : Vec3).smul bias) ⟨0, 0, -1⟩
      = false := by
    simp [occluded, List.enum, List.enumFrom]
  rw [hocc]
  have hdotl : (⟨0, 0, 1⟩ : Vec3).dot ⟨0, 0, -1⟩ = -1 := by
    simp [Vec3.dot_def]
  apply Vec3.ext3 <;>
    simp [axisSphere, mkSphere, hdotl, Vec3.dot_def]

/-- C7: `trace` adds the hit sphere's emission color to the shading result
unconditionally in both branches, and a ray hitting a sphere with emission
`(5,5,5)` and zero reflection and transparency returns exactly `(5,5,5)`. -/
theorem C7_emission_additive :
    (∀ (o d : Vec3) (sph : List Sphere) (depth : ℕ) (s : Sphere) (t : ℝ),
      findNearest sph o d = some (s, t) →
      trace o d sph depth = surfaceShade o d sph depth s t +
        s.emissionColor) ∧
    trace ⟨0, 0, 0⟩ ⟨0, 0, -1⟩
      [axisSphere (Vec3.ofScalar 1) 0 0 (Vec3.ofScalar 5)] 0 = ⟨5, 5, 5⟩ :=
  ⟨trace_of_hit, glow_trace⟩

/-- A half-transparent sphere of radius 5 around the origin, entered from a
point inside it: the geometry that drives the refraction code into a
negative radicand. -/
def tirSphere : Sphere := mkSphere ⟨0, 0, 0⟩ 5 ⟨1, 0, 0⟩ 0 (1/2) 0

/-- The interior ray origin used against `tirSphere`. -/
def tirOrigin : Vec3 := ⟨0, 24/5, 0⟩

theorem tirSphere_intersect :
    tirSphere.intersect tirOrigin ⟨1, 0, 0⟩ = some (-(7/5), 7/5) := by
  refine (intersect_eq_some_iff _ _ _ _ _).2 ?_
  have htca : tcaOf tirSphere tirOrigin ⟨1, 0, 0⟩ = 0 := by
    simp [tcaOf, tirSphere, tirOrigin, mkSphere, Vec3.dot_def]
  have hd2 : d2Of tirSphere tirOrigin ⟨1, 0, 0⟩ = 576/25 := by
    simp [d2Of, tcaOf, tirSphere, tirOrigin, mkSphere, Vec3.dot_def]
    norm_num
  have hthc : thcOf tirSphere tirOrigin ⟨1, 0, 0⟩ = 7/5 := by
    rw [thcOf, hd2]
    have h1 : (tirSphere.radius2 - 576/25 : ℝ) = (7/5) ^ 2 := by
      simp [tirSphere, mkSphere]
      norm_num
    rw [h1, Real.sqrt_sq (by norm_num : (0:ℝ) ≤ 7/5)]
  refine ⟨by rw [htca], ?_, by rw [htca, hthc]; norm_num,
    by rw [htca, hthc]; norm_num⟩
  rw [hd2]
  simp [tirSphere, mkSphere]
  norm_num

theorem tirSphere_findNearest :
    findNearest [tirSphere] tirOrigin ⟨1, 0, 0⟩ = some (tirSphere, 7/5) := by
  unfold findNearest
  rw [List.foldl_cons, List.foldl_nil]
  unfold nearestStep
  rw [tirSphere_intersect]
  norm_num

theorem tir_nhit0 :
    ((tirOrigin + (⟨1, 0, 0⟩ : Vec3).smul (7/5)) - tirSphere.center).normalize
      = ⟨7/25, 24/25, 0⟩ := by
  have h1 : (tirOrigin + (⟨1, 0, 0⟩ : Vec3).smul (7/5)) - tirSphere.center =
      ⟨7/5, 24/5, 0⟩ := by
    apply Vec3.ext3 <;> simp [tirOrigin, tirSphere, mkSphere]
  rw [h1, normalize_eval (7/5) (24/5) 0 5 (by norm_num) (by norm_num)]
  apply Vec3.ext3 <;> norm_num

/-- C8: the refraction code applies `sqrt` to `k = 1 − eta²(1 − cosi²)`
without guarding `k < 0`: the interior grazing ray from `tirOrigin` along
`(1,0,0)` through the half-transparent `tirSphere` reaches the refraction
branch (nearest hit recorded, positive transparency, depth 0 within budget,
inside case with the normal flipped, so `eta = ior = 1.1`) with a strictly
negative radicand, violating the square root's non-negativity
precondition. -/
theorem C8_unguarded_total_internal_reflection :
    findNearest [tirSphere] tirOrigin ⟨1, 0, 0⟩ = some (tirSphere, 7/5) ∧
    tirSphere.transparency > 0 ∧ tirSphere.transparency ≠ 0 ∧
    (0 : ℕ) < MAX_RAY_DEPTH ∧
    (⟨1, 0, 0⟩ : Vec3).dot
      ((tirOrigin + (⟨1, 0, 0⟩ : Vec3).smul (7/5)) -
        tirSphere.center).normalize > 0 ∧
    (let nhit := -((tirOrigin + (⟨1, 0, 0⟩ : Vec3).smul (7/5)) -
        tirSphere.center).normalize
     let eta : ℝ := 1.1
     let cosi := -(nhit.dot ⟨1, 0, 0⟩)
     1 - eta * eta * (1 - cosi * cosi) < 0) := by
  refine ⟨tirSphere_findNearest, by simp [tirSphere, mkSphere],
    by simp [tirSphere, mkSphere], by norm_num [MAX_RAY_DEPTH],
    ?_, ?_⟩
  · rw [tir_nhit0]
    simp [Vec3.dot_def]
  · rw [tir_nhit0]
    simp only [Vec3.dot_def, Vec3.neg_x, Vec3.neg_y, Vec3.neg_z,
      Vec3.mk_x, Vec3.mk_y, Vec3.mk_z]
    norm_num

/-- C9: whenever `Sphere::intersect` hits, `tca ≥ 0` and `thc ≥ 0`, so
`t1 = tca + thc ≥ 0` and the effective distance (`t0`, or `t1` when
`t0 < 0`) is nonnegative; consequently every state of `trace`'s nearest-hit
loop that records a hit carries a nonnegative `tnear`, and a selected hit
is never behind the ray origin. -/
theorem C9_nonnegative_distances :
    (∀ (s : Sphere) (o d : Vec3) (t0 t1 : ℝ),
      s.intersect o d = some (t0, t1) →
        0 ≤ tcaOf s o d ∧ 0 ≤ thcOf s o d ∧
        t1 = tcaOf s o d + thcOf s o d ∧ 0 ≤ t1 ∧
        0 ≤ (if t0 < 0 then t1 else t0)) ∧
    (∀ (o d : Vec3) (s : Sphere) (t : ℝ), effDist o d s = some t → 0 ≤ t) ∧
    (∀ (o d : Vec3) (rest : List Sphere) (acc : Option (Sphere × ℝ)),
      (∀ b tb, acc = some (b, tb) → 0 ≤ tb) →
      ∀ c tc, rest.foldl (nearestStep o d) acc = some (c, tc) → 0 ≤ tc) ∧
    (∀ (sph : List Sphere) (o d : Vec3) (c : Sphere) (tc : ℝ),
      findNearest sph o d = some (c, tc) → 0 ≤ tc) := by
  refine ⟨?_, effDist_nonneg, foldl_nearestStep_nonneg, ?_⟩
  · intro s o d t0 t1 h
    rcases (intersect_eq_some_iff s o d t0 t1).1 h with ⟨htca, -, ht0, ht1⟩
    have hthc : 0 ≤ thcOf s o d := Real.sqrt_nonneg _
    have h1 : 0 ≤ t1 := by rw [ht1]; positivity
    refine ⟨htca, hthc, ht1, h1, ?_⟩
    split_ifs with h0
    · exact h1
    · exact not_lt.1 h0
  · intro sph o d c tc h
    exact foldl_nearestStep_nonneg o d sph none (by simp) c tc h

/-- C10: the out-parameter model of `Sphere::intersect`: a `false` return
leaves the caller's `t0`, `t1` slots exactly as they were, and the slots
take the computed `tca ∓ thc` values only on a `true` return. -/
theorem C10_out_params_frame (s : Sphere) (o d : Vec3) (a b : ℝ) :
    ((s.intersectRef o d a b).1 = false →
      s.intersectRef o d a b = (false, a, b)) ∧
    ((s.intersectRef o d a b).1 = true →
      s.intersectRef o d a b =
        (true, tcaOf s o d - thcOf s o d, tcaOf s o d + thcOf s o d)) ∧
    (s.intersect o d = none → s.intersectRef o d a b = (false, a, b)) := by
  simp only [Sphere.intersectRef]
  split_ifs with h1 h2
  · exact ⟨fun _ => rfl, fun h => by simp at h, fun _ => rfl⟩
  · exact ⟨fun _ => rfl, fun h => by simp at h, fun _ => rfl⟩
  · refine ⟨fun h => by simp at h, fun _ => ?_, fun h => ?_⟩
    · simp only [tcaOf, d2Of, thcOf]
    · rw [intersect_eq_none_iff] at h
      rcases h with h | h
      · exact absurd h (by simp only [tcaOf] at h1 ⊢; exact h1)
      · exact absurd h (by simp only [d2Of, tcaOf] at h2 ⊢; exact h2)

end

